import Mathlib

/-!
Verification development for the FinBot chat widget (`src/App.tsx`).

The program's resolution pipeline is embedded shallowly:

* JavaScript strings are modelled as `List Char` (`JSString`); the string
  primitives used by the code (`toLowerCase`, `trim`, `split(' ')`, `join(' ')`,
  `includes`, `startsWith`, `replace` with a string pattern, `substring`) are
  given executable list-level models that agree with JavaScript on the
  character data this app handles.
* The two network calls are modelled as explicit `FetchOutcome` parameters of
  the resolver: `throw` stands for a fetch/parse exception, `ok r` for a
  successfully parsed JSON body `r`.  JSON objects are ordered association
  lists, matching the insertion-order iteration of `Object.entries`.
* Numbers produced by `parseFloat` are modelled as exact decimal values
  (`DecNum`, an integer numerator with a power-of-ten exponent); `toFixed(2)`
  is modelled as nearest-two-decimal rendering with ties away from zero on the
  magnitude and the sign taken from the input, which matches JavaScript on
  the decimal numerals this app consumes (including the `"-0.00"` output for
  small negative values).
-/

abbrev JSString := List Char

/-- Coerce a Lean string literal to the `List Char` model of a JS string. -/
def strL (s : String) : JSString := s.toList

/-- Whitespace test used by the `trim` model (space, tab, CR, LF — the
whitespace actually occurring in this app's inputs). -/
def isWs (c : Char) : Bool := c.isWhitespace

/-- Model of `String.prototype.toLowerCase` on the ASCII data this app uses. -/
def jsToLower (s : JSString) : JSString := s.map Char.toLower

/-- Model of `String.prototype.toUpperCase` on the ASCII data this app uses. -/
def jsToUpper (s : JSString) : JSString := s.map Char.toUpper

/-- Model of `String.prototype.trim`: drop whitespace from both ends. -/
def jsTrim (s : JSString) : JSString :=
  ((s.dropWhile isWs).reverse.dropWhile isWs).reverse

/-- Model of `String.prototype.split` with a single-character separator:
splits at every occurrence of `sep` (runs of separators yield empty pieces),
and the empty string yields `[[]]`, as in JavaScript. -/
def splitChar (sep : Char) : JSString → List JSString
  | [] => [[]]
  | c :: cs =>
    match splitChar sep cs with
    | [] => [[]]
    | r :: rs => if c = sep then [] :: r :: rs else (c :: r) :: rs

/-- Model of `String.prototype.includes`: `occursIn t s` is true when `t`
occurs contiguously inside `s`. -/
def occursIn (t : JSString) : JSString → Bool
  | [] => t.isEmpty
  | c :: cs => t.isPrefixOf (c :: cs) || occursIn t cs

/-- Model of `String.prototype.replace` with a string pattern: replace the
first occurrence of `pat` by `rep`, or return the string unchanged when `pat`
does not occur. -/
def replaceFirst (pat rep : JSString) : JSString → JSString
  | [] => if pat.isEmpty then rep else []
  | c :: cs =>
    if pat.isPrefixOf (c :: cs) then rep ++ (c :: cs).drop pat.length
    else c :: replaceFirst pat rep cs

/-- Result of `parseCommand` (`src/App.tsx` lines 27–33). -/
structure ParsedCommand where
  command : JSString
  args : JSString
deriving DecidableEq

/-- `parseCommand` from `src/App.tsx` lines 27–33:
`message.toLowerCase().trim().split(' ')`, first part as `command`, the
remaining parts rejoined with single spaces as `args`. -/
def parseCommand (message : JSString) : ParsedCommand :=
  let parts := splitChar ' ' (jsTrim (jsToLower message))
  ⟨parts.headD [], List.intercalate (strL " ") parts.tail⟩

/-- Modelled from the spec (§4.1), for comparison with `parseCommand`:
trim and lowercase, split on runs of whitespace (so no empty tokens),
first token as command, remaining tokens rejoined with single spaces. -/
def parseCommandSpec (message : JSString) : ParsedCommand :=
  let tokens := (List.splitOnP isWs (jsTrim (jsToLower message))).filter
    (fun t => !t.isEmpty)
  ⟨tokens.headD [], List.intercalate (strL " ") tokens.tail⟩

/-- Exact decimal value `num / 10 ^ exp`: the model of numbers produced by
`parseFloat` on this app's decimal numerals. -/
structure DecNum where
  num : Int
  exp : Nat
deriving DecidableEq

/-- Rational value denoted by a `DecNum`. -/
def DecNum.toRat (x : DecNum) : ℚ := (x.num : ℚ) / 10 ^ x.exp

/-- Sign test mirroring the JavaScript comparison `x >= 0` (note JavaScript's
`-0 >= 0` is `true`, and `DecNum` has no negative zero, so testing the
numerator is faithful). -/
def DecNum.nonneg (x : DecNum) : Bool := 0 ≤ x.num

/-- Numeric value of a string of decimal digit characters. -/
def digitsToNat (ds : JSString) : Nat := ds.foldl (fun a c => a * 10 + (c.toNat - 48)) 0

/-- Model of `parseFloat` on plain decimal numerals: skip leading whitespace,
optional sign, integer digits, optional fractional digits; any trailing
characters are ignored, as in JavaScript.  (Exponent notation and NaN
propagation lie outside the fragment this app exercises.) -/
def jsParseFloat (s : JSString) : DecNum :=
  let s1 := s.dropWhile isWs
  let signAndRest :=
    match s1 with
    | '-' :: t => (true, t)
    | '+' :: t => (false, t)
    | _ => (false, s1)
  let s2 := signAndRest.2
  let ip := s2.takeWhile Char.isDigit
  let rest := s2.dropWhile Char.isDigit
  let fp :=
    match rest with
    | '.' :: t => t.takeWhile Char.isDigit
    | _ => []
  let mag : Nat := digitsToNat ip * 10 ^ fp.length + digitsToNat fp
  ⟨if signAndRest.1 then -(mag : Int) else (mag : Int), fp.length⟩

/-- Decimal digit characters of a positive number, most significant first;
the first argument is recursion fuel (`n` itself is always enough). -/
def natDigitsAux : Nat → Nat → JSString
  | 0, _ => []
  | _ + 1, 0 => []
  | fuel + 1, n + 1 => natDigitsAux fuel ((n + 1) / 10) ++ [Nat.digitChar ((n + 1) % 10)]

/-- Decimal digit characters of a natural number (`0` renders as `"0"`). -/
def natDigits (n : Nat) : JSString := if n = 0 then ['0'] else natDigitsAux n n

/-- Exactly two digit characters for `m < 100` (zero-padded). -/
def twoDigits (m : Nat) : JSString :=
  [Nat.digitChar (m / 10 % 10), Nat.digitChar (m % 10)]

/-- Model of `Number.prototype.toFixed(2)`: round the magnitude to the nearest
hundredth (ties away from zero), render with exactly two fraction digits, and
prefix `'-'` when the input is negative — so `-0.004` renders as `"-0.00"`,
as in JavaScript. -/
def toFixed2 (x : DecNum) : JSString :=
  let m : Nat := (x.num.natAbs * 200 + 10 ^ x.exp) / (2 * 10 ^ x.exp)
  (if x.num < 0 then ['-'] else []) ++ natDigits (m / 100) ++ ['.'] ++ twoDigits (m % 100)

/-- The `default` entry's text (`predefinedResponses.default` in the source). -/
def defaultText : JSString :=
  strL "I'm not sure about that. Try asking about stocks, investing basics, or type 'help' for available commands."

/-- `predefinedResponses` from `src/App.tsx` lines 15–23, as an ordered
association list: JavaScript object literals iterate string keys in insertion
order, which is the declaration order below. -/
def predefinedResponses : List (JSString × JSString) :=
  [ (strL "hello",
     strL "Hello! I'm your financial assistant. I can help you with:\n- Stock prices (try 'stock AAPL')\n- Investment basics\n- Market terms\n- Financial advice\nWhat would you like to know?"),
    (strL "help",
     strL "Here are commands you can try:\n- 'stock SYMBOL' (e.g., try these symbols:\n  â€¢ AAPL (Apple)\n  â€¢ MSFT (Microsoft)\n  â€¢ GOOGL (Google)\n  â€¢ AMZN (Amazon)\n  â€¢ TSLA (Tesla)\n  â€¢ META (Meta/Facebook)\n  â€¢ NFLX (Netflix))\n- 'explain investing'\n- 'what is a stock'\n- 'investment tips'\n- 'market basics'"),
    (strL "what is a stock",
     strL "A stock represents ownership in a company. When you buy a stock, you're buying a small piece of that company. The stock price can go up or down based on the company's performance and market conditions."),
    (strL "investment tips",
     strL "Here are some basic investment tips:\n1. Diversify your portfolio\n2. Invest for the long term\n3. Start early\n4. Research before investing\n5. Don't invest money you can't afford to lose"),
    (strL "market basics",
     strL "The stock market is where shares of public companies are bought and sold. Key things to know:\n- Stock exchanges (NYSE, NASDAQ)\n- Market hours (9:30 AM - 4:00 PM EST)\n- Types of orders (market, limit)\n- Basic terms (bull/bear market)"),
    (strL "explain investing",
     strL "Investing is putting money into assets hoping to grow wealth over time. Common investment types:\n1. Stocks\n2. Bonds\n3. Mutual Funds\n4. ETFs\n5. Real Estate"),
    (strL "default", defaultText) ]

/-- Outcome of one `fetch(...).json()` round trip: either an exception
(network or parse failure, caught by the surrounding `try`) or a parsed body. -/
inductive FetchOutcome (α : Type)
  | throw
  | ok (response : α)
deriving DecidableEq

/-- Parsed body of the GLOBAL_QUOTE endpoint: `note` is the presence of the
rate-limit marker field `'Note'`; `globalQuote` is the `'Global Quote'` object
(`none` when the field is absent, `some []` when present but empty). -/
structure QuoteResponse where
  note : Bool
  globalQuote : Option (List (JSString × JSString))
deriving DecidableEq

/-- Parsed body of the TIME_SERIES_MONTHLY endpoint: `note` as above;
`monthly` is the `'Monthly Time Series'` mapping in document order
(newest-first, as the API returns it), each entry an object of OHLC fields. -/
structure HistoryResponse where
  note : Bool
  monthly : Option (List (JSString × List (JSString × JSString)))
deriving DecidableEq

/-- The `{ error: ... } | { data: ... }` result convention of the two fetch
helpers.  (All error strings produced by the code are non-empty, so the
JavaScript truthiness test `if (result.error)` coincides with this sum.) -/
inductive FetchResult (α : Type)
  | error (msg : JSString)
  | data (d : α)
deriving DecidableEq

/-- Field access `obj['key']` on a parsed JSON object. -/
def jsField (obj : List (JSString × JSString)) (key : JSString) : JSString :=
  (List.lookup key obj).getD []

/-- `getStockData` from `src/App.tsx` lines 109–128: rate-limit marker first,
then absent-or-empty quote object, else the quote data; any exception becomes
the generic quote-failure message. -/
def getStockData (symbol : JSString) (outcome : FetchOutcome QuoteResponse) :
    FetchResult (List (JSString × JSString)) :=
  match outcome with
  | .throw => .error (strL "Failed to fetch stock data. Please try again.")
  | .ok body =>
    if body.note then
      .error (strL "API rate limit reached. Please try again in a minute.")
    else
      match body.globalQuote with
      | none => .error (strL "Could not find stock data for symbol: " ++ symbol)
      | some q =>
        if q.length = 0 then
          .error (strL "Could not find stock data for symbol: " ++ symbol)
        else .data q

/-- One point of the chart series: `date` is `date.substring(0, 7)`, `price`
is `parseFloat(values['4. close'])`. -/
structure ChartPoint where
  date : JSString
  price : DecNum
deriving DecidableEq

/-- `getHistoricalData` from `src/App.tsx` lines 35–62: rate-limit marker,
then missing `'Monthly Time Series'`, else the first 12 entries of the
(newest-first) mapping, reversed, projected to `{date, price}`; any exception
becomes the generic history-failure message. -/
def getHistoricalData (symbol : JSString) (outcome : FetchOutcome HistoryResponse) :
    FetchResult (List ChartPoint) :=
  match outcome with
  | .throw => .error (strL "Failed to fetch historical data")
  | .ok body =>
    if body.note then
      .error (strL "API rate limit reached. Please try again in a minute.")
    else
      match body.monthly with
      | none => .error (strL "No historical data found")
      | some entries =>
        .data (((entries.take 12).reverse).map
          (fun e => ⟨e.1.take 7, jsParseFloat (jsField e.2 (strL "4. close"))⟩))

/-- The up-direction glyph exactly as it appears in the source bytes. -/
def upGlyph : JSString := strL "ðŸ“ˆ"

/-- The down-direction glyph exactly as it appears in the source bytes. -/
def downGlyph : JSString := strL "ðŸ“‰"

/-- `formatStockResponse` from `src/App.tsx` lines 130–141.  Note the
direction glyph is chosen by `parseFloat(change) >= 0` where `change` is the
already-rounded `toFixed(2)` string. -/
def formatStockResponse (stockData : List (JSString × JSString)) (symbol : JSString) : JSString :=
  let price := toFixed2 (jsParseFloat (jsField stockData (strL "05. price")))
  let change := toFixed2 (jsParseFloat (jsField stockData (strL "09. change")))
  let changePercent := jsField stockData (strL "10. change percent")
  let direction := if (jsParseFloat change).nonneg then upGlyph else downGlyph
  direction ++ strL " " ++ jsToUpper symbol ++ strL " Stock Info:\n" ++
  strL "Price: $" ++ price ++ strL "\n" ++
  strL "Change: $" ++ change ++ strL " (" ++ changePercent ++ strL ")\n" ++
  strL "Today's High: $" ++ toFixed2 (jsParseFloat (jsField stockData (strL "03. high"))) ++ strL "\n" ++
  strL "Today's Low: $" ++ toFixed2 (jsParseFloat (jsField stockData (strL "04. low")))

/-- The `chartData` payload attached to a bot message. -/
structure ChartData where
  symbol : JSString
  data : List ChartPoint
deriving DecidableEq

/-- The resolver's return value `{ text, chartData? }`. -/
structure BotResponse where
  text : JSString
  chartData : Option ChartData
deriving DecidableEq

/-- `getBotResponse` from `src/App.tsx` lines 143–193, with the two network
round trips passed in as explicit outcomes.  Branch order as in the source:
stock command, exact knowledge match, substring scan in declaration order,
definition-style prefix query, default fallback.  (The exact-match truthiness
test `if (predefinedResponses[lowerMessage])` coincides with association-list
lookup because every stored answer is a non-empty string.) -/
def getBotResponse (userMessage : JSString) (quoteFetch : FetchOutcome QuoteResponse)
    (historyFetch : FetchOutcome HistoryResponse) : BotResponse :=
  let parsed := parseCommand userMessage
  let lowerMessage := jsToLower userMessage
  if parsed.command = strL "stock" ∧ parsed.args ≠ [] then
    let symbol := (splitChar ' ' parsed.args).headD []
    match getStockData symbol quoteFetch with
    | .error e => ⟨e, none⟩
    | .data q =>
      match getHistoricalData symbol historyFetch with
      | .data d => ⟨formatStockResponse q symbol, some ⟨jsToUpper symbol, d⟩⟩
      | .error _ => ⟨formatStockResponse q symbol, none⟩
  else
    match List.lookup lowerMessage predefinedResponses with
    | some reply => ⟨reply, none⟩
    | none =>
      match predefinedResponses.find? (fun kv => occursIn kv.1 lowerMessage) with
      | some kv => ⟨kv.2, none⟩
      | none =>
        if (strL "what is").isPrefixOf lowerMessage || (strL "explain").isPrefixOf lowerMessage then
          let term := jsTrim (replaceFirst (strL "explain") []
            (replaceFirst (strL "what is") [] lowerMessage))
          if term ≠ [] then
            ⟨strL "I'll explain " ++ term ++ strL ". " ++
              ((List.lookup term predefinedResponses).getD defaultText), none⟩
          else ⟨defaultText, none⟩
        else ⟨defaultText, none⟩

/-- Spec-side projection of one monthly entry (§4.3 History shaping): period
is the first 7 characters of the date string, price the parsed closing value. -/
def specProj (e : JSString × List (JSString × JSString)) : ChartPoint :=
  ⟨e.1.take 7, jsParseFloat (jsField e.2 (strL "4. close"))⟩

/-- Concrete quote object used by witnesses. -/
def quoteW : List (JSString × JSString) :=
  [ (strL "01. symbol", strL "AAPL"),
    (strL "05. price", strL "150.0000"),
    (strL "09. change", strL "2.5000"),
    (strL "10. change percent", strL "1.6900%"),
    (strL "03. high", strL "151.0000"),
    (strL "04. low", strL "148.0000") ]

/-- Concrete 13-month monthly series (newest first) used by witnesses. -/
def historyW : List (JSString × List (JSString × JSString)) :=
  [ (strL "2025-09-30", [(strL "4. close", strL "113.0000")]),
    (strL "2025-08-29", [(strL "4. close", strL "112.0000")]),
    (strL "2025-07-31", [(strL "4. close", strL "111.0000")]),
    (strL "2025-06-30", [(strL "4. close", strL "110.0000")]),
    (strL "2025-05-30", [(strL "4. close", strL "109.0000")]),
    (strL "2025-04-30", [(strL "4. close", strL "108.0000")]),
    (strL "2025-03-31", [(strL "4. close", strL "107.0000")]),
    (strL "2025-02-28", [(strL "4. close", strL "106.0000")]),
    (strL "2025-01-31", [(strL "4. close", strL "105.0000")]),
    (strL "2024-12-31", [(strL "4. close", strL "104.0000")]),
    (strL "2024-11-29", [(strL "4. close", strL "103.0000")]),
    (strL "2024-10-31", [(strL "4. close", strL "102.0000")]),
    (strL "2024-09-30", [(strL "4. close", strL "101.0000")]) ]

/-! ### String-primitive lemmas -/

theorem pref_parts : ∀ {t s : JSString}, t.isPrefixOf s = true ↔ ∃ r, s = t ++ r
  | [], s => by simp [List.isPrefixOf]
  | a :: as, [] => by simp [List.isPrefixOf]
  | a :: as, b :: bs => by
    simp only [List.isPrefixOf_cons₂, Bool.and_eq_true, beq_iff_eq]
    constructor
    · rintro ⟨rfl, h⟩
      obtain ⟨r, rfl⟩ := pref_parts.mp h
      exact ⟨r, rfl⟩
    · rintro ⟨r, hr⟩
      cases hr
      exact ⟨rfl, pref_parts.mpr ⟨r, rfl⟩⟩

theorem pref_append (t r : JSString) : t.isPrefixOf (t ++ r) = true :=
  pref_parts.mpr ⟨r, rfl⟩

theorem sub_nil : ∀ u : JSString, occursIn [] u = true
  | [] => rfl
  | _ :: _ => by simp [occursIn, List.isPrefixOf]

theorem sub_parts : ∀ {t s : JSString}, occursIn t s = true ↔ ∃ l r, s = l ++ t ++ r
  | t, [] => by
    constructor
    · intro h
      have ht : t = [] := by
        cases t with
        | nil => rfl
        | cons a as => simp [occursIn] at h
      exact ⟨[], [], by simp [ht]⟩
    · rintro ⟨l, r, h⟩
      have : t = [] := by
        cases l <;> cases t <;> simp_all
      simp [this, sub_nil]
  | t, c :: cs => by
    rw [occursIn, Bool.or_eq_true]
    constructor
    · rintro (h | h)
      · obtain ⟨r, hr⟩ := pref_parts.mp h
        exact ⟨[], r, by simpa using hr⟩
      · obtain ⟨l, r, hr⟩ := (sub_parts (t := t) (s := cs)).mp h
        exact ⟨c :: l, r, by simp [hr]⟩
    · rintro ⟨l, r, hl⟩
      cases l with
      | nil => exact Or.inl (pref_parts.mpr ⟨r, by simpa using hl⟩)
      | cons x xs =>
        rw [List.cons_append, List.cons_append] at hl
        injection hl with h1 h2
        exact Or.inr ((sub_parts (t := t) (s := cs)).mpr ⟨xs, r, h2⟩)

theorem occursIn_self (t : JSString) : occursIn t t = true :=
  sub_parts.mpr ⟨[], [], by simp⟩

/-- True when the string is empty or starts with a non-whitespace character. -/
def headNotWs (t : JSString) : Bool :=
  match t with
  | [] => true
  | c :: _ => !isWs c

theorem sub_pad_left : ∀ (pre : JSString) {t u : JSString},
    (∀ c ∈ pre, isWs c = true) → headNotWs t = true →
    occursIn t (pre ++ u) = true → occursIn t u = true
  | [], _, _, _, _, h => h
  | p :: ps, t, u, hpre, hh, h => by
    rw [List.cons_append, occursIn, Bool.or_eq_true] at h
    rcases h with hp | hrest
    · cases t with
      | nil => exact sub_nil u
      | cons a as =>
        exfalso
        obtain ⟨r, hr⟩ := pref_parts.mp hp
        have hap : a = p := by
          rw [List.cons_append] at hr
          injection hr with h1 h2
          exact h1.symm
        have hws : isWs p = true := hpre p (List.mem_cons_self p ps)
        rw [← hap] at hws
        simp [headNotWs, hws] at hh
    · exact sub_pad_left ps (fun c hc => hpre c (List.mem_cons_of_mem p hc)) hh hrest

theorem sub_rev {t s : JSString} : occursIn t.reverse s.reverse = true ↔ occursIn t s = true := by
  rw [sub_parts, sub_parts]
  constructor
  · rintro ⟨l, r, h⟩
    refine ⟨r.reverse, l.reverse, ?_⟩
    have h2 := congrArg List.reverse h
    rw [List.reverse_reverse] at h2
    rw [h2]
    simp [List.reverse_append, List.append_assoc]
  · rintro ⟨l, r, rfl⟩
    exact ⟨r.reverse, l.reverse, by simp [List.reverse_append, List.append_assoc]⟩

theorem sub_pad_right (suf : JSString) {t u : JSString}
    (hsuf : ∀ c ∈ suf, isWs c = true) (hl : headNotWs t.reverse = true)
    (h : occursIn t (u ++ suf) = true) : occursIn t u = true := by
  rw [← sub_rev] at h ⊢
  rw [List.reverse_append] at h
  exact sub_pad_left suf.reverse
    (fun c hc => hsuf c (List.mem_reverse.mp hc)) hl h

theorem sub_pads {t pre u suf : JSString}
    (hpre : ∀ c ∈ pre, isWs c = true) (hsuf : ∀ c ∈ suf, isWs c = true)
    (hh : headNotWs t = true) (hl : headNotWs t.reverse = true)
    (h : occursIn t (pre ++ u ++ suf) = true) : occursIn t u = true := by
  rw [List.append_assoc] at h
  have h1 : occursIn t (u ++ suf) = true := sub_pad_left pre hpre hh h
  exact sub_pad_right suf hsuf hl h1

theorem trim_parts (s : JSString) :
    ∃ pre suf, (∀ c ∈ pre, isWs c = true) ∧ (∀ c ∈ suf, isWs c = true) ∧
      s = pre ++ jsTrim s ++ suf := by
  refine ⟨s.takeWhile isWs, ((s.dropWhile isWs).reverse.takeWhile isWs).reverse,
    ?_, ?_, ?_⟩
  · intro c hc; exact List.mem_takeWhile_imp hc
  · intro c hc
    rw [List.mem_reverse] at hc
    exact List.mem_takeWhile_imp hc
  · conv_lhs => rw [← List.takeWhile_append_dropWhile isWs s]
    rw [List.append_assoc]
    congr 1
    rw [jsTrim, ← List.reverse_append, List.takeWhile_append_dropWhile, List.reverse_reverse]

/-! ### Association-list and scan lemmas -/

theorem lookup_none_of_ne {a : JSString} :
    ∀ {l : List (JSString × JSString)}, (∀ p ∈ l, a ≠ p.1) → List.lookup a l = none
  | [], _ => rfl
  | (k, v) :: t, h => by
    have hk : a ≠ k := h (k, v) (List.mem_cons_self _ _)
    simp only [List.lookup, beq_eq_false_iff_ne.mpr hk]
    exact lookup_none_of_ne (fun p hp => h p (List.mem_cons_of_mem _ hp))

theorem lookup_mem {a b : JSString} :
    ∀ {l : List (JSString × JSString)}, List.lookup a l = some b → (a, b) ∈ l
  | [], h => by simp [List.lookup] at h
  | (k, v) :: t, h => by
    by_cases hk : a = k
    · subst hk
      simp only [List.lookup, beq_self_eq_true] at h
      injection h with h
      subst h
      exact List.mem_cons_self _ _
    · simp only [List.lookup, beq_eq_false_iff_ne.mpr hk] at h
      exact List.mem_cons_of_mem _ (lookup_mem h)

theorem find_first {α : Type} (p : α → Bool) :
    ∀ (l : List α) (i : Nat) (hi : i < l.length),
      (∀ j, (hj : j < i) → p (l.get ⟨j, Nat.lt_trans hj hi⟩) = false) →
      p (l.get ⟨i, hi⟩) = true → l.find? p = some (l.get ⟨i, hi⟩)
  | [], i, hi, _, _ => absurd hi (by simp)
  | a :: t, 0, hi, _, hp => by
    simp only [List.get] at hp ⊢
    simp [List.find?, hp]
  | a :: t, i + 1, hi, hfirst, hp => by
    have ha : p a = false := hfirst 0 (Nat.succ_pos i)
    simp only [List.find?, ha]
    exact find_first p t i (Nat.lt_of_succ_lt_succ hi)
      (fun j hj => hfirst (j + 1) (Nat.succ_lt_succ hj)) hp

theorem pref_head {t s : JSString} (h : t.isPrefixOf s = true) :
    ∀ c c', t.head? = some c → s.head? = some c' → c = c' := by
  intro c c' hc hc'
  cases t with
  | nil => simp at hc
  | cons a as =>
    cases s with
    | nil => simp [List.isPrefixOf] at h
    | cons b bs =>
      simp only [List.head?] at hc hc'
      injection hc with hc
      injection hc' with hc'
      subst hc hc'
      simp only [List.isPrefixOf_cons₂, Bool.and_eq_true, beq_iff_eq] at h
      exact h.1

/-! ### Digit-rendering lemmas -/

theorem digitChar_digit : ∀ m : Nat, m < 10 → (Nat.digitChar m).isDigit = true :=
  fun m h => (by decide : ∀ i : Fin 10, (Nat.digitChar i.val).isDigit = true) ⟨m, h⟩

theorem natDigitsAux_digits :
    ∀ (fuel n : Nat), ∀ c ∈ natDigitsAux fuel n, c.isDigit = true := by
  intro fuel
  induction fuel with
  | zero => intro n c hc; simp [natDigitsAux] at hc
  | succ f ih =>
    intro n c hc
    cases n with
    | zero => simp [natDigitsAux] at hc
    | succ m =>
      rw [natDigitsAux] at hc
      rcases List.mem_append.mp hc with h | h
      · exact ih _ c h
      · rw [List.mem_singleton] at h
        subst h
        exact digitChar_digit _ (Nat.mod_lt _ (by decide))

theorem natDigits_digits (n : Nat) : ∀ c ∈ natDigits n, c.isDigit = true := by
  intro c hc
  rw [natDigits] at hc
  by_cases h : n = 0
  · simp [h] at hc
    subst hc
    decide
  · simp only [if_neg h] at hc
    exact natDigitsAux_digits n n c hc

/-! ### Knowledge-table facts (established by evaluation) -/

theorem keys_trim_fixed : ∀ i : Fin predefinedResponses.length,
    jsTrim (predefinedResponses.get i).1 = (predefinedResponses.get i).1 := by decide

theorem keys_ends : ∀ i : Fin predefinedResponses.length,
    headNotWs (predefinedResponses.get i).1 = true ∧
    headNotWs (predefinedResponses.get i).1.reverse = true := by decide

theorem keys_not_sub : ∀ i j : Fin predefinedResponses.length, i ≠ j →
    occursIn (predefinedResponses.get i).1 (predefinedResponses.get j).1 = false := by decide

set_option maxRecDepth 40000 in
theorem keys_lookup : ∀ i : Fin predefinedResponses.length,
    List.lookup (predefinedResponses.get i).1 predefinedResponses =
      some (predefinedResponses.get i).2 := by decide

theorem keys_cmd : ∀ i : Fin predefinedResponses.length,
    ((splitChar ' ' (predefinedResponses.get i).1).headD []) ≠ strL "stock" := by decide

theorem keys_ne_stock : ∀ i : Fin predefinedResponses.length,
    (predefinedResponses.get i).1 ≠ strL "stock" := by decide

theorem keys_not_sub_stock : ∀ i : Fin predefinedResponses.length,
    occursIn (predefinedResponses.get i).1 (strL "stock") = false := by decide

theorem splitChar_head (sep : Char) : ∀ l : JSString, sep ∉ (splitChar sep l).headD []
  | [] => by simp [splitChar]
  | c :: cs => by
    have ih := splitChar_head sep cs
    simp only [splitChar]
    cases h : splitChar sep cs with
    | nil => simp
    | cons r rs =>
      rw [h] at ih
      by_cases hc : c = sep
      · simp [hc]
      · simp only [if_neg hc, List.headD_cons]
        intro hmem
        rcases List.mem_cons.mp hmem with h1 | h1
        · exact hc h1.symm
        · exact ih (by simpa using h1)

/-! ### Claim theorems -/

/-- C2 (counterexample): `parseCommand` does not split on runs of whitespace —
on `"  Stock   AAPL  "` it returns `args = "  aapl"` (the empty pieces from
the interior run of spaces are rejoined with single spaces), not `"aapl"` as
the spec-modelled parser would. -/
theorem c2_counterexample :
    parseCommand (strL "  Stock   AAPL  ") = ⟨strL "stock", strL "  aapl"⟩ ∧
    (parseCommand (strL "  Stock   AAPL  ")).args ≠ strL "aapl" ∧
    parseCommand (strL "  Stock   AAPL  ") ≠ parseCommandSpec (strL "  Stock   AAPL  ") := by
  decide

/-- C2 (amended): the parser trims and lowercases, but splits on single space
characters, so interior runs of spaces survive into `args` as empty tokens
rejoined with single spaces: `parse("  Stock   AAPL  ")` yields
`command = "stock"` and `args = "  aapl"`; the empty string maps to
`⟨"", ""⟩`; and every input maps to a command containing no space. -/
theorem c2_parse_behavior (raw : JSString) :
    parseCommand (strL "  Stock   AAPL  ") = ⟨strL "stock", strL "  aapl"⟩ ∧
    parseCommand (strL "") = ⟨[], []⟩ ∧
    ' ' ∉ (parseCommand raw).command := by
  refine ⟨by decide, by decide, ?_⟩
  exact splitChar_head ' ' (jsTrim (jsToLower raw))

/-- C2 witness: the amended parser facts at a concrete input. -/
theorem c2_witness : ' ' ∉ (parseCommand (strL " a  b c ")).command :=
  (c2_parse_behavior (strL " a  b c ")).2.2

/-- C4: when the quote fetch body carries the rate-limit marker, a stock
command resolves to the rate-limit message with no chart payload, whatever
the history fetch returns and whatever the quote object contains. -/
theorem c4_rate_limited (msg : JSString) (gq : Option (List (JSString × JSString)))
    (hf : FetchOutcome HistoryResponse)
    (hcmd : (parseCommand msg).command = strL "stock")
    (hargs : (parseCommand msg).args ≠ []) :
    getBotResponse msg (.ok ⟨true, gq⟩) hf =
      ⟨strL "API rate limit reached. Please try again in a minute.", none⟩ := by
  simp only [getBotResponse]
  rw [if_pos ⟨hcmd, hargs⟩]
  simp [getStockData]

/-- C4 witness: `resolve("stock tsla")` under a rate-limited quote source. -/
theorem c4_witness :
    getBotResponse (strL "stock tsla") (.ok ⟨true, none⟩) .throw =
      ⟨strL "API rate limit reached. Please try again in a minute.", none⟩ :=
  c4_rate_limited (strL "stock tsla") none .throw (by decide) (by decide)

/-- C5 (counterexample): with an empty quote object, `resolve("stock zzzz")`
returns the not-found message with the symbol in lowercase — the text does
not contain `"ZZZZ"`. -/
theorem c5_counterexample :
    (getBotResponse (strL "stock zzzz") (.ok ⟨false, some []⟩) .throw).text =
      strL "Could not find stock data for symbol: zzzz" ∧
    occursIn (strL "ZZZZ")
      (getBotResponse (strL "stock zzzz") (.ok ⟨false, some []⟩) .throw).text = false := by
  decide

/-- C5 (amended): when the quote fetch returns an empty or absent quote
object for a command parsing to `stock zzzz` (any case variant of the input),
the resolver returns the not-found message referencing the symbol in its
lowercased form `"zzzz"`, with no chart payload. -/
theorem c5_not_found (msg : JSString) (gq : Option (List (JSString × JSString)))
    (hf : FetchOutcome HistoryResponse)
    (hparse : parseCommand msg = ⟨strL "stock", strL "zzzz"⟩)
    (hgq : gq = none ∨ gq = some []) :
    getBotResponse msg (.ok ⟨false, gq⟩) hf =
      ⟨strL "Could not find stock data for symbol: zzzz", none⟩ := by
  have h1 : (parseCommand msg).command = strL "stock" := by rw [hparse]
  have h2 : (parseCommand msg).args ≠ [] := by rw [hparse]; decide
  simp only [getBotResponse]
  rw [if_pos ⟨h1, h2⟩, hparse]
  rcases hgq with rfl | rfl <;> rfl

/-- C5 witness: a case variant `"stock ZZZZ"` with an absent quote object. -/
theorem c5_witness :
    getBotResponse (strL "stock ZZZZ") (.ok ⟨false, none⟩) .throw =
      ⟨strL "Could not find stock data for symbol: zzzz", none⟩ :=
  c5_not_found (strL "stock ZZZZ") none .throw (by decide) (Or.inl rfl)

/-- C6: when the quote succeeds but the history fetch fails (any failure
kind), a stock command resolves to the formatted quote summary alone, with no
chart payload. -/
theorem c6_history_degraded (msg sym : JSString) (q : List (JSString × JSString))
    (hf : FetchOutcome HistoryResponse) (e : JSString)
    (hcmd : (parseCommand msg).command = strL "stock")
    (hargs : (parseCommand msg).args ≠ [])
    (hsym : (splitChar ' ' (parseCommand msg).args).headD [] = sym)
    (hq : q ≠ [])
    (hhist : getHistoricalData sym hf = .error e) :
    getBotResponse msg (.ok ⟨false, some q⟩) hf = ⟨formatStockResponse q sym, none⟩ := by
  simp only [getBotResponse]
  rw [if_pos ⟨hcmd, hargs⟩, hsym]
  have hsd : getStockData sym (.ok ⟨false, some q⟩) = .data q := by
    simp [getStockData, List.length_eq_zero, hq]
  rw [hsd, hhist]

/-- C6 witness: quote succeeds, history rate-limited. -/
theorem c6_witness :
    getBotResponse (strL "stock aapl")
      (.ok ⟨false, some [(strL "05. price", strL "123.4")]⟩) (.ok ⟨true, none⟩) =
      ⟨formatStockResponse [(strL "05. price", strL "123.4")] (strL "aapl"), none⟩ :=
  c6_history_degraded (strL "stock aapl") (strL "aapl")
    [(strL "05. price", strL "123.4")] (.ok ⟨true, none⟩)
    (strL "API rate limit reached. Please try again in a minute.")
    (by decide) (by decide) (by decide) (by decide) (by decide)

/-- C8: every fetch exception is caught inside the fetch helpers and becomes
an error payload with the generic failure text; a stock command whose quote
fetch throws resolves to that text with no chart; and the empty input never
fails — it resolves to the default fallback text for every fetch outcome. -/
theorem c8_error_containment :
    (∀ sym, getStockData sym .throw =
      .error (strL "Failed to fetch stock data. Please try again.")) ∧
    (∀ sym, getHistoricalData sym .throw =
      .error (strL "Failed to fetch historical data")) ∧
    (∀ msg hf, (parseCommand msg).command = strL "stock" →
      (parseCommand msg).args ≠ [] →
      getBotResponse msg .throw hf =
        ⟨strL "Failed to fetch stock data. Please try again.", none⟩) ∧
    (∀ qf hf, getBotResponse [] qf hf = ⟨defaultText, none⟩) := by
  refine ⟨fun sym => rfl, fun sym => rfl, ?_, fun qf hf => rfl⟩
  intro msg hf hcmd hargs
  simp only [getBotResponse]
  rw [if_pos ⟨hcmd, hargs⟩]
  rfl

/-- C8 witness: a throwing quote fetch on a concrete stock command, and the
empty input. -/
theorem c8_witness :
    getBotResponse (strL "stock aapl") .throw .throw =
      ⟨strL "Failed to fetch stock data. Please try again.", none⟩ ∧
    getBotResponse [] .throw .throw = ⟨defaultText, none⟩ :=
  ⟨c8_error_containment.2.2.1 (strL "stock aapl") .throw (by decide) (by decide),
   c8_error_containment.2.2.2 .throw .throw⟩

/-- C3: when the quote fetch and the history fetch both succeed, the stock
command resolves to the formatted summary plus a chart payload whose series
is the 12 most recent entries of the newest-first source mapping, reversed to
chronological order and projected by `specProj` (period = first 7 characters
of the date, price = parsed closing value); the series length is
`min 12` the number of source entries. -/
theorem c3_chart_series (msg sym : JSString) (q : List (JSString × JSString))
    (entries : List (JSString × List (JSString × JSString)))
    (hcmd : (parseCommand msg).command = strL "stock")
    (hargs : (parseCommand msg).args ≠ [])
    (hsym : (splitChar ' ' (parseCommand msg).args).headD [] = sym)
    (hq : q ≠ []) :
    getBotResponse msg (.ok ⟨false, some q⟩) (.ok ⟨false, some entries⟩) =
      ⟨formatStockResponse q sym,
        some ⟨jsToUpper sym, ((entries.take 12).map specProj).reverse⟩⟩ ∧
    (((entries.take 12).map specProj).reverse).length = min 12 entries.length := by
  constructor
  · simp only [getBotResponse]
    rw [if_pos ⟨hcmd, hargs⟩, hsym]
    have hsd : getStockData sym (.ok ⟨false, some q⟩) = .data q := by
      simp [getStockData, List.length_eq_zero, hq]
    have hhd : getHistoricalData sym (.ok ⟨false, some entries⟩) =
        .data (((entries.take 12).reverse).map
          (fun e => ⟨e.1.take 7, jsParseFloat (jsField e.2 (strL "4. close"))⟩)) := by
      simp [getHistoricalData]
    rw [hsd, hhd, List.map_reverse]
    rfl
  · rw [List.length_reverse, List.length_map, List.length_take]

/-- C3 witness: a 13-entry mocked history — the chart keeps the 12 most
recent entries in chronological order. -/
theorem c3_witness :
    getBotResponse (strL "stock aapl") (.ok ⟨false, some quoteW⟩) (.ok ⟨false, some historyW⟩) =
      ⟨formatStockResponse quoteW (strL "aapl"),
        some ⟨jsToUpper (strL "aapl"), ((historyW.take 12).map specProj).reverse⟩⟩ ∧
    (((historyW.take 12).map specProj).reverse).length = min 12 historyW.length :=
  c3_chart_series (strL "stock aapl") (strL "aapl") quoteW historyW
    (by decide) (by decide) (by decide) (by decide)

theorem DecNum.toRat_nonneg (x : DecNum) : 0 ≤ x.toRat ↔ 0 ≤ x.num := by
  have hp : (0 : ℚ) < 10 ^ x.exp := by positivity
  rw [DecNum.toRat, le_div_iff₀ hp, zero_mul]
  exact Int.cast_nonneg

theorem DecNum.toRat_neg (x : DecNum) : x.toRat < 0 ↔ x.num < 0 := by
  rw [← not_le, ← not_le]
  exact not_congr (DecNum.toRat_nonneg x)

/-- C9 (counterexample): a strictly negative change of `-0.004` still gets
the up glyph, because the glyph is chosen from the sign of the already
rounded two-decimal string `"-0.00"`, which parses back as zero. -/
theorem c9_sign_counterexample :
    (jsParseFloat (strL "-0.004")).toRat < 0 ∧
    upGlyph.isPrefixOf
      (formatStockResponse [(strL "09. change", strL "-0.004")] (strL "tsla")) = true := by
  constructor
  · rw [DecNum.toRat_neg]
    decide
  · decide

/-- C9 (amended): price, change, high and low are rendered by `toFixed2`
(exactly two digits after the decimal point, any sign and digits before it),
the percent-change string is embedded verbatim, and the direction glyph is
the up glyph exactly when the change, after rounding to two decimals and
re-parsing, is non-negative — so negative changes rounding to `-0.00` get
the up glyph, all other negative changes the down glyph. -/
theorem c9_format (q : List (JSString × JSString)) (sym : JSString) :
    (upGlyph.isPrefixOf (formatStockResponse q sym) =
      (jsParseFloat (toFixed2 (jsParseFloat (jsField q (strL "09. change"))))).nonneg) ∧
    (∃ l r, formatStockResponse q sym =
      l ++ (strL "Price: $" ++ toFixed2 (jsParseFloat (jsField q (strL "05. price"))) ++
        strL "\n") ++ r) ∧
    (∃ l r, formatStockResponse q sym =
      l ++ (strL " (" ++ jsField q (strL "10. change percent") ++ strL ")\n") ++ r) ∧
    (∃ l r, formatStockResponse q sym =
      l ++ (strL "Today's High: $" ++ toFixed2 (jsParseFloat (jsField q (strL "03. high"))) ++
        strL "\n") ++ r) ∧
    (∃ l, formatStockResponse q sym =
      l ++ (strL "Today's Low: $" ++ toFixed2 (jsParseFloat (jsField q (strL "04. low"))))) ∧
    (∀ x : DecNum, ∃ p a b, toFixed2 x = p ++ ('.' :: [a, b]) ∧
      a.isDigit = true ∧ b.isDigit = true ∧ (∀ c ∈ p, c = '-' ∨ c.isDigit = true)) := by
  refine ⟨?_, ?_, ?_, ?_, ?_, ?_⟩
  · cases hnn : (jsParseFloat (toFixed2 (jsParseFloat (jsField q (strL "09. change"))))).nonneg with
    | true =>
      simp only [formatStockResponse, hnn, if_true]
      simp only [List.append_assoc]
      exact pref_append upGlyph _
    | false =>
      simp only [formatStockResponse, hnn]
      rfl
  · exact ⟨(if (jsParseFloat (toFixed2 (jsParseFloat (jsField q (strL "09. change"))))).nonneg
        then upGlyph else downGlyph) ++ strL " " ++ jsToUpper sym ++ strL " Stock Info:\n",
      strL "Change: $" ++ toFixed2 (jsParseFloat (jsField q (strL "09. change"))) ++
        strL " (" ++ jsField q (strL "10. change percent") ++ strL ")\n" ++
        strL "Today's High: $" ++ toFixed2 (jsParseFloat (jsField q (strL "03. high"))) ++
        strL "\n" ++ strL "Today's Low: $" ++ toFixed2 (jsParseFloat (jsField q (strL "04. low"))),
      by simp only [formatStockResponse, List.append_assoc]⟩
  · exact ⟨(if (jsParseFloat (toFixed2 (jsParseFloat (jsField q (strL "09. change"))))).nonneg
        then upGlyph else downGlyph) ++ strL " " ++ jsToUpper sym ++ strL " Stock Info:\n" ++
        strL "Price: $" ++ toFixed2 (jsParseFloat (jsField q (strL "05. price"))) ++ strL "\n" ++
        strL "Change: $" ++ toFixed2 (jsParseFloat (jsField q (strL "09. change"))),
      strL "Today's High: $" ++ toFixed2 (jsParseFloat (jsField q (strL "03. high"))) ++
        strL "\n" ++ strL "Today's Low: $" ++ toFixed2 (jsParseFloat (jsField q (strL "04. low"))),
      by simp only [formatStockResponse, List.append_assoc]⟩
  · exact ⟨(if (jsParseFloat (toFixed2 (jsParseFloat (jsField q (strL "09. change"))))).nonneg
        then upGlyph else downGlyph) ++ strL " " ++ jsToUpper sym ++ strL " Stock Info:\n" ++
        strL "Price: $" ++ toFixed2 (jsParseFloat (jsField q (strL "05. price"))) ++ strL "\n" ++
        strL "Change: $" ++ toFixed2 (jsParseFloat (jsField q (strL "09. change"))) ++
        strL " (" ++ jsField q (strL "10. change percent") ++ strL ")\n",
      strL "Today's Low: $" ++ toFixed2 (jsParseFloat (jsField q (strL "04. low"))),
      by simp only [formatStockResponse, List.append_assoc]⟩
  · exact ⟨(if (jsParseFloat (toFixed2 (jsParseFloat (jsField q (strL "09. change"))))).nonneg
        then upGlyph else downGlyph) ++ strL " " ++ jsToUpper sym ++ strL " Stock Info:\n" ++
        strL "Price: $" ++ toFixed2 (jsParseFloat (jsField q (strL "05. price"))) ++ strL "\n" ++
        strL "Change: $" ++ toFixed2 (jsParseFloat (jsField q (strL "09. change"))) ++
        strL " (" ++ jsField q (strL "10. change percent") ++ strL ")\n" ++
        strL "Today's High: $" ++ toFixed2 (jsParseFloat (jsField q (strL "03. high"))) ++
        strL "\n",
      by simp only [formatStockResponse, List.append_assoc]⟩
  · intro x
    refine ⟨(if x.num < 0 then ['-'] else []) ++
        natDigits ((x.num.natAbs * 200 + 10 ^ x.exp) / (2 * 10 ^ x.exp) / 100),
      Nat.digitChar ((x.num.natAbs * 200 + 10 ^ x.exp) / (2 * 10 ^ x.exp) % 100 / 10 % 10),
      Nat.digitChar ((x.num.natAbs * 200 + 10 ^ x.exp) / (2 * 10 ^ x.exp) % 100 % 10),
      ?_, ?_, ?_, ?_⟩
    · simp only [toFixed2, twoDigits, List.append_assoc]
      rfl
    · exact digitChar_digit _ (Nat.mod_lt _ (by decide))
    · exact digitChar_digit _ (Nat.mod_lt _ (by decide))
    · intro c hc
      rcases List.mem_append.mp hc with h | h
      · left
        by_cases hx : x.num < 0
        · simp only [if_pos hx] at h
          rw [List.mem_singleton] at h
          exact h
        · simp [if_neg hx] at h
      · right
        exact natDigits_digits _ c h

/-- C9 witness: the glyph law evaluated at the concrete witness quote. -/
theorem c9_witness :
    upGlyph.isPrefixOf (formatStockResponse quoteW (strL "aapl")) =
      (jsParseFloat (toFixed2 (jsParseFloat (jsField quoteW (strL "09. change"))))).nonneg :=
  (c9_format quoteW (strL "aapl")).1

/-- C1: any input whose trimmed-lowercased form equals a knowledge trigger
resolves to exactly that trigger's stored text, with no chart payload and
independently of the fetch outcomes.  (With no surrounding whitespace the
exact-match branch fires; with whitespace padding the substring scan still
selects the same entry, since no trigger occurs inside another.) -/
theorem c1_exact_trigger (msg k v : JSString) (qf : FetchOutcome QuoteResponse)
    (hf : FetchOutcome HistoryResponse)
    (hmem : (k, v) ∈ predefinedResponses)
    (htrim : jsTrim (jsToLower msg) = k) :
    getBotResponse msg qf hf = ⟨v, none⟩ := by
  obtain ⟨i, hget⟩ := List.mem_iff_get.mp hmem
  have hk : (predefinedResponses.get i).1 = k := by rw [hget]
  have hv : (predefinedResponses.get i).2 = v := by rw [hget]
  obtain ⟨pre, suf, hpre, hsuf, hdec⟩ := trim_parts (jsToLower msg)
  rw [htrim] at hdec
  have hcmd : (parseCommand msg).command = (splitChar ' ' k).headD [] := by
    simp only [parseCommand]
    rw [htrim]
  have hstock : ¬((parseCommand msg).command = strL "stock" ∧ (parseCommand msg).args ≠ []) := by
    rintro ⟨h1, _⟩
    rw [hcmd, ← hk] at h1
    exact keys_cmd i h1
  simp only [getBotResponse]
  rw [if_neg hstock]
  by_cases hsk : jsToLower msg = k
  · have hlk : List.lookup (jsToLower msg) predefinedResponses = some v := by
      rw [hsk, ← hk, ← hv]
      exact keys_lookup i
    rw [hlk]
  · have hlk : List.lookup (jsToLower msg) predefinedResponses = none := by
      apply lookup_none_of_ne
      intro p hp hap
      obtain ⟨j, hj⟩ := List.mem_iff_get.mp hp
      have htf : jsTrim p.1 = p.1 := by rw [← hj]; exact keys_trim_fixed j
      have hpk : p.1 = k := by rw [← htf, ← hap, htrim]
      exact hsk (hap.trans hpk)
    rw [hlk]
    have hfind : predefinedResponses.find? (fun kv => occursIn kv.1 (jsToLower msg)) =
        some (predefinedResponses.get i) := by
      have := find_first (fun kv => occursIn kv.1 (jsToLower msg))
        predefinedResponses i.val i.isLt ?first ?this
      · exact this
      case this =>
        show occursIn (predefinedResponses.get ⟨i.val, i.isLt⟩).1 (jsToLower msg) = true
        rw [Fin.eta, hk, hdec]
        exact sub_parts.mpr ⟨pre, suf, rfl⟩
      case first =>
        intro j hj
        show occursIn (predefinedResponses.get ⟨j, _⟩).1 (jsToLower msg) = false
        cases hocc : occursIn (predefinedResponses.get ⟨j, Nat.lt_trans hj i.isLt⟩).1
            (jsToLower msg) with
        | false => rfl
        | true =>
          exfalso
          have hends := keys_ends ⟨j, Nat.lt_trans hj i.isLt⟩
          rw [hdec] at hocc
          have hsub := sub_pads hpre hsuf hends.1 hends.2 hocc
          rw [← hk] at hsub
          have hne : (⟨j, Nat.lt_trans hj i.isLt⟩ : Fin predefinedResponses.length) ≠ i :=
            Fin.ne_of_val_ne (Nat.ne_of_lt hj)
          have hks := keys_not_sub ⟨j, Nat.lt_trans hj i.isLt⟩ i hne
          exact absurd (hsub.symm.trans hks) (by decide)
    rw [hfind]
    simpa using hv

set_option maxRecDepth 40000 in
/-- C1 witness: the registered trigger `"what is a stock"` resolves through
the exact-match branch to its stored text. -/
theorem c1_witness :
    getBotResponse (strL "what is a stock") .throw .throw =
      ⟨(predefinedResponses.get ⟨2, by decide⟩).2, none⟩ :=
  c1_exact_trigger (strL "what is a stock") (strL "what is a stock")
    ((predefinedResponses.get ⟨2, by decide⟩).2) .throw .throw (by decide) (by decide)

/-- C7 (counterexample): the message `"stock hello help"` contains the
triggers `"hello"` and `"help"` as substrings, yet it is captured by the
stock-command branch, so the resolver does not return the earlier-declared
trigger's text. -/
theorem c7_counterexample :
    occursIn ((predefinedResponses.get ⟨0, by decide⟩).1)
      (jsToLower (strL "stock hello help")) = true ∧
    occursIn ((predefinedResponses.get ⟨1, by decide⟩).1)
      (jsToLower (strL "stock hello help")) = true ∧
    getBotResponse (strL "stock hello help") .throw .throw =
      ⟨strL "Failed to fetch stock data. Please try again.", none⟩ ∧
    strL "Failed to fetch stock data. Please try again." ≠
      (predefinedResponses.get ⟨0, by decide⟩).2 := by
  exact ⟨by decide, by decide, rfl, by decide⟩

/-- C7 (amended): for any message not captured by the stock-command branch,
the substring scan walks the triggers in declaration order and the first
contained trigger wins: if the trigger at position `i` is contained in the
lowercased message and no earlier trigger is, the resolver returns exactly
that trigger's text with no chart payload. -/
theorem c7_substring_order (msg : JSString) (qf : FetchOutcome QuoteResponse)
    (hf : FetchOutcome HistoryResponse) (i : Nat) (hi : i < predefinedResponses.length)
    (hstock : ¬((parseCommand msg).command = strL "stock" ∧ (parseCommand msg).args ≠ []))
    (hcont : occursIn (predefinedResponses.get ⟨i, hi⟩).1 (jsToLower msg) = true)
    (hbefore : ∀ j, (hj : j < i) →
      occursIn (predefinedResponses.get ⟨j, Nat.lt_trans hj hi⟩).1 (jsToLower msg) = false) :
    getBotResponse msg qf hf = ⟨(predefinedResponses.get ⟨i, hi⟩).2, none⟩ := by
  simp only [getBotResponse]
  rw [if_neg hstock]
  cases hlk : List.lookup (jsToLower msg) predefinedResponses with
  | some r =>
    obtain ⟨j, hj⟩ := List.mem_iff_get.mp (lookup_mem hlk)
    have hsj : (predefinedResponses.get j).1 = jsToLower msg := by rw [hj]
    have hjv : (predefinedResponses.get j).2 = r := by rw [hj]
    rcases Nat.lt_trichotomy j.val i with hlt | heq | hgt
    · exfalso
      have hb := hbefore j.val hlt
      rw [Fin.eta, hsj, occursIn_self] at hb
      exact absurd hb (by decide)
    · have hij : (⟨i, hi⟩ : Fin predefinedResponses.length) = j := Fin.ext heq.symm
      rw [hij, hjv]
    · exfalso
      have hne : (⟨i, hi⟩ : Fin predefinedResponses.length) ≠ j :=
        Fin.ne_of_val_ne (Nat.ne_of_lt hgt)
      have hks := keys_not_sub ⟨i, hi⟩ j hne
      rw [hsj] at hks
      exact absurd (hcont.symm.trans hks) (by decide)
  | none =>
    have hfind := find_first (fun kv => occursIn kv.1 (jsToLower msg))
      predefinedResponses i hi hbefore hcont
    rw [hfind]

set_option maxRecDepth 40000 in
/-- C7 witness: `"can you help with market basics"` contains both `"help"`
(declared 2nd) and `"market basics"` (declared 5th); the resolver returns
the `"help"` text. -/
theorem c7_witness :
    getBotResponse (strL "can you help with market basics") .throw .throw =
      ⟨(predefinedResponses.get ⟨1, by decide⟩).2, none⟩ :=
  c7_substring_order (strL "can you help with market basics") .throw .throw 1 (by decide)
    (by decide) (by decide) (by decide)

/-- C10: an input whose trimmed-lowercased form is exactly `"stock"` (bare
command, any case, any surrounding whitespace) has an empty argument
remainder, so the stock branch is skipped — the result is the default
fallback text with no chart payload, independent of both fetch outcomes. -/
theorem c10_bare_stock (msg : JSString) (qf : FetchOutcome QuoteResponse)
    (hf : FetchOutcome HistoryResponse)
    (htrim : jsTrim (jsToLower msg) = strL "stock") :
    getBotResponse msg qf hf = ⟨defaultText, none⟩ := by
  obtain ⟨pre, suf, hpre, hsuf, hdec⟩ := trim_parts (jsToLower msg)
  rw [htrim] at hdec
  have hargs : (parseCommand msg).args = [] := by
    simp only [parseCommand]
    rw [htrim]
    decide
  have hstock : ¬((parseCommand msg).command = strL "stock" ∧ (parseCommand msg).args ≠ []) := by
    rintro ⟨_, h2⟩
    exact h2 hargs
  simp only [getBotResponse]
  rw [if_neg hstock]
  have hlk : List.lookup (jsToLower msg) predefinedResponses = none := by
    apply lookup_none_of_ne
    intro p hp hap
    obtain ⟨j, hj⟩ := List.mem_iff_get.mp hp
    have htf : jsTrim p.1 = p.1 := by rw [← hj]; exact keys_trim_fixed j
    have hpk : p.1 = strL "stock" := by rw [← htf, ← hap, htrim]
    have hne := keys_ne_stock j
    rw [hj] at hne
    exact hne hpk
  rw [hlk]
  have hfind : predefinedResponses.find? (fun kv => occursIn kv.1 (jsToLower msg)) = none := by
    rw [List.find?_eq_none]
    intro kv hkv hocc
    obtain ⟨j, hj⟩ := List.mem_iff_get.mp hkv
    have hocc2 : occursIn kv.1 (jsToLower msg) = true := hocc
    rw [hdec] at hocc2
    have hends := keys_ends j
    rw [hj] at hends
    have hsub := sub_pads hpre hsuf hends.1 hends.2 hocc2
    have hns := keys_not_sub_stock j
    rw [hj] at hns
    exact absurd (hsub.symm.trans hns) (by decide)
  rw [hfind]
  have hw : (strL "what is").isPrefixOf (jsToLower msg) = false := by
    cases hp : (strL "what is").isPrefixOf (jsToLower msg) with
    | false => rfl
    | true =>
      exfalso
      rw [hdec] at hp
      cases pre with
      | nil => exact absurd (pref_head hp 'w' 's' (by decide) rfl) (by decide)
      | cons c cs =>
        have hcw := pref_head hp 'w' c (by decide) rfl
        have hws : isWs c = true := hpre c (List.mem_cons_self _ _)
        rw [← hcw] at hws
        exact absurd hws (by decide)
  have he : (strL "explain").isPrefixOf (jsToLower msg) = false := by
    cases hp : (strL "explain").isPrefixOf (jsToLower msg) with
    | false => rfl
    | true =>
      exfalso
      rw [hdec] at hp
      cases pre with
      | nil => exact absurd (pref_head hp 'e' 's' (by decide) rfl) (by decide)
      | cons c cs =>
        have hce := pref_head hp 'e' c (by decide) rfl
        have hws : isWs c = true := hpre c (List.mem_cons_self _ _)
        rw [← hce] at hws
        exact absurd hws (by decide)
  rw [hw, he]
  rfl

/-- C10 witness: the bare command with padding and mixed case. -/
theorem c10_witness :
    getBotResponse (strL "  StOcK  ") .throw .throw = ⟨defaultText, none⟩ :=
  c10_bare_stock (strL "  StOcK  ") .throw .throw (by decide)
